import Mathlib

/-!
Shallow embedding of the youtube-likes-summary pipeline
(`main.py`, `src/youtube_collector.py`, `src/transcript_extractor.py`,
`src/summarizer.py`, `src/categorizer.py`, `src/reporter.py`).

External services (the captions API, the audio downloader, the Whisper
model, the language-model API, the persisted-file store) are modelled as
explicit function-valued parameters; every pure computation of the source
is translated directly.  Python dicts whose insertion order matters
(category configuration, the category grouping) are modelled as
association lists; records are structures with `Option` fields for keys
that are present only on some paths.
-/

namespace YLS

/-- Status discriminator carried by transcript and summary records
(`'success' | 'no_transcript' | 'disabled' | 'error' | 'skipped'`). -/
inductive Status where
  | success
  | no_transcript
  | disabled
  | error
  | skipped
deriving DecidableEq, Repr

/-- One timed caption entry (`{'text', 'start', 'duration'}`).  Offsets are
modelled as integers; no claim depends on their arithmetic. -/
structure Entry where
  text : String
  start : Int := 0
  duration : Int := 0
deriving DecidableEq, Repr

/-- A collected video record (`youtube_collector.get_liked_videos` item);
only the fields the verified claims read are carried. -/
structure Video where
  video_id : String
  title : String := ""
  description : String := ""
  channel : String := ""
  url : String := ""
deriving DecidableEq, Repr

/-- A transcript record as produced by `TranscriptExtractor`.  Fields that
exist only on some code paths (`language`, `method`, `error`, the video
metadata added by `main._extract_transcripts`) are `Option`s. -/
structure Transcript where
  video_id : String
  language : Option String := none
  is_generated : Bool := false
  method : Option String := none
  text : String := ""
  entries : List Entry := []
  status : Status
  error : Option String := none
  video_title : Option String := none
  video_url : Option String := none
  channel : Option String := none
deriving DecidableEq, Repr

/-- A summary record as produced by `VideoSummarizer`. -/
structure Summary where
  video_id : String
  video_title : Option String := none
  video_url : Option String := none
  channel : Option String := none
  type : Option String := none
  summary : Option String := none
  error : Option String := none
  reason : Option String := none
  status : Status
deriving DecidableEq, Repr

/-- Python `str.lower()` (per-character lowercasing). -/
def strLower (s : String) : String := ⟨s.data.map Char.toLower⟩

/-- Helper for Python's substring test: does `needle` occur inside the
character list? -/
def subAux (needle : List Char) : List Char → Bool
  | [] => needle.isEmpty
  | c :: rest => needle.isPrefixOf (c :: rest) || subAux needle rest

/-- Python `sub in hay` on strings. -/
def strContains (hay sub : String) : Bool := subAux sub.data hay.data

/-- Python `str.strip()`. -/
def strStrip (s : String) : String :=
  ⟨((s.data.dropWhile Char.isWhitespace).reverse.dropWhile Char.isWhitespace).reverse⟩

/-! ## Categorizer (`src/categorizer.py`) -/

/-- `sum(1 for keyword in keywords if keyword.lower() in search_text)`. -/
def kwScore (search_text : String) (keywords : List String) : Nat :=
  (keywords.filter fun keyword => strContains search_text (strLower keyword)).length

/-- The search text built by `categorize_video`: lowercased
`title + " " + description`, plus the first 500 characters of the
transcript text (lowercased) when a success-status transcript is given. -/
def searchText (video : Video) (transcript : Option Transcript) : String :=
  let base := strLower (video.title ++ " " ++ video.description)
  match transcript with
  | some t => if t.status = .success then base ++ " " ++ strLower (t.text.take 500) else base
  | none => base

/-- One step of Python's `max(..., key=...)` left-to-right scan: the
current best is replaced only on a strictly greater score. -/
def pickStep (best q : String × Nat) : String × Nat :=
  if best.2 < q.2 then q else best

/-- The `category_scores` entry for one configured category: scored pairs
are recorded only when the score is positive
(`if score > 0: category_scores[category] = score`). -/
def catScore (search_text : String) (p : String × List String) : Option (String × Nat) :=
  let score := kwScore search_text p.2
  if 0 < score then some (p.1, score) else none

/-- `VideoCategorizer.categorize_video`: positive keyword scores per
category (configuration order), first maximal score wins, `'기타'` when
no category scores. -/
def categorize_video (cats : List (String × List String)) (video : Video)
    (transcript : Option Transcript) : String :=
  match cats.filterMap (catScore (searchText video transcript)) with
  | [] => "기타"
  | p :: rest => (rest.foldl pickStep p).1

/-- A video with the `'category'` key added (`video.copy()` plus
`video_with_category['category'] = category`). -/
structure CatVideo where
  video : Video
  category : String
deriving DecidableEq, Repr

/-- `{t['video_id']: t for t in transcripts}` lookup: the last transcript
bearing the identifier wins, as in the Python dict comprehension. -/
def transcript_map (transcripts : List Transcript) (vid : String) : Option Transcript :=
  transcripts.reverse.find? fun t => t.video_id == vid

/-- Append a tagged video to its category bucket, creating the bucket at
the end when absent (Python dict insertion order). -/
def addToCategory (m : List (String × List CatVideo)) (cat : String) (cv : CatVideo) :
    List (String × List CatVideo) :=
  match m with
  | [] => [(cat, [cv])]
  | (c, vs) :: rest =>
    if c = cat then (c, vs ++ [cv]) :: rest else (c, vs) :: addToCategory rest cat cv

/-- Loop body of `categorize_batch`: classify one video and append it
(tagged with its category) to that category's bucket. -/
def categorizeStep (cats : List (String × List String)) (transcripts : List Transcript)
    (m : List (String × List CatVideo)) (video : Video) : List (String × List CatVideo) :=
  let category := categorize_video cats video (transcript_map transcripts video.video_id)
  addToCategory m category { video := video, category := category }

/-- `VideoCategorizer.categorize_batch`. -/
def categorize_batch (cats : List (String × List String)) (videos : List Video)
    (transcripts : List Transcript) : List (String × List CatVideo) :=
  videos.foldl (categorizeStep cats transcripts) []

/-- Number of occurrences of the exact video record `v` across all
buckets of a category grouping (observer used to state that
`categorize_batch` places every input video exactly once). -/
def batchCount (m : List (String × List CatVideo)) (v : Video) : Nat :=
  match m with
  | [] => 0
  | p :: rest => (p.2.filter fun cv => cv.video == v).length + batchCount rest v

/-! ## Collector (`src/youtube_collector.py`) -/

/-- Loop body of `get_liked_videos`: while a next page exists and fewer
than `max_results` items are collected, append the whole page. -/
def collectPages (pages : List (List Video)) (max_results : Nat) (acc : List Video) :
    List Video :=
  match pages with
  | [] => acc
  | page :: rest =>
    if acc.length < max_results then collectPages rest max_results (acc ++ page) else acc

/-- `YouTubeCollector.get_liked_videos` over an upstream listing modelled
as its sequence of pages. -/
def get_liked_videos (pages : List (List Video)) (max_results : Nat) : List Video :=
  collectPages pages max_results []

/-! ## Extractor (`src/transcript_extractor.py`) -/

/-- The captions service: per-language lookup (`get_transcript`, any
failure folded to `none`, as the source swallows every exception there)
and the fetchable-transcript listing (`list_transcripts`, failures folded
to the empty list). -/
structure CaptionsEnv where
  getTranscript : String → String → Option (List Entry)
  listTranscripts : String → List (List Entry × String)

/-- The language-preference loop of `_extract_youtube_transcript`: first
language that yields captions wins. -/
def tryLanguages (cenv : CaptionsEnv) (video_id : String) :
    List String → Option (List Entry × String)
  | [] => none
  | lang :: rest =>
    match cenv.getTranscript video_id lang with
    | some transcript_data => some (transcript_data, lang)
    | none => tryLanguages cenv video_id rest

/-- `TranscriptExtractor._extract_youtube_transcript`. -/
def extract_youtube_transcript (cenv : CaptionsEnv) (video_id : String)
    (languages : List String) : Transcript :=
  let first :=
    match tryLanguages cenv video_id languages with
    | some r => some r
    | none =>
      match cenv.listTranscripts video_id with
      | [] => none
      | r :: _ => some r
  match first with
  | some (transcript_data, language_used) =>
    { video_id := video_id
      language := some language_used
      is_generated := false
      method := some "youtube_api"
      text := String.intercalate " " (transcript_data.map (·.text))
      entries := transcript_data
      status := .success }
  | none =>
    { video_id := video_id
      status := .no_transcript
      error := some "사용 가능한 자막이 없습니다" }

/-- One Whisper segment (`{'text', 'start', 'end'}`; `stop` stands for the
source's `end` key, a Lean keyword). -/
structure WhisperSegment where
  text : String
  start : Int := 0
  stop : Int := 0
deriving DecidableEq, Repr

/-- The result dict of `whisper_model.transcribe`. -/
structure WhisperResult where
  language : Option String := none
  text : String := ""
  segments : List WhisperSegment := []
deriving DecidableEq, Repr

/-- The audio/Whisper side effects: downloading (`None` on failure),
recognition (exception modelled as `.error`), and whether the
`os.remove` of a given path succeeds. -/
structure WhisperEnv where
  downloadAudio : String → String → Option String
  transcribe : String → Except String WhisperResult
  removeSucceeds : String → Bool

/-- `TranscriptExtractor._extract_with_whisper`.  The second component
records whether the downloaded audio file is still on disk afterwards:
when recognition throws, control jumps to the handler before `os.remove`
runs, so the file remains; on success `os.remove` is attempted and its
failure is swallowed. -/
def extract_with_whisper (wenv : WhisperEnv) (video_id url : String) :
    Transcript × Bool :=
  match wenv.downloadAudio video_id url with
  | none =>
    ({ video_id := video_id, status := .error, error := some "오디오 다운로드 실패" }, false)
  | some audio_path =>
    match wenv.transcribe audio_path with
    | .error e =>
      ({ video_id := video_id, status := .error, error := some e }, true)
    | .ok result =>
      let segments := result.segments.map fun segment =>
        ({ text := strStrip segment.text
           start := segment.start
           duration := segment.stop - segment.start } : Entry)
      ({ video_id := video_id
         language := some (result.language.getD "unknown")
         is_generated := true
         method := some "whisper"
         text := strStrip result.text
         entries := segments
         status := .success }, !(wenv.removeSucceeds audio_path))

/-- `TranscriptExtractor.extract_transcript`.  The second component
records whether a Whisper recognition was attempted. -/
def extract_transcript (cenv : CaptionsEnv) (wenv : WhisperEnv) (use_whisper : Bool)
    (video_id : String) (url : Option String) (languages : List String := ["ko", "en"]) :
    Transcript × Bool :=
  let transcript := extract_youtube_transcript cenv video_id languages
  if transcript.status = .success then (transcript, false)
  else
    match url with
    | some u => if use_whisper then ((extract_with_whisper wenv video_id u).1, true)
                else (transcript, false)
    | none => (transcript, false)

/-- `TranscriptExtractor.load_transcript` over the persisted-file store
(path ↦ parsed record): the `youtube_api` file takes priority, then the
`whisper` file, else `none`. -/
def load_transcript (fs : String → Option Transcript) (video_id : String) :
    Option Transcript :=
  match fs (video_id ++ "_youtube_api.json") with
  | some t => some t
  | none =>
    match fs (video_id ++ "_whisper.json") with
    | some t => some t
    | none => none

/-- `TranscriptExtractor.save_transcripts` as the list of (path, record)
file writes it performs: only success-status records are written. -/
def save_transcripts (transcripts : List Transcript) : List (String × Transcript) :=
  transcripts.filterMap fun transcript =>
    if transcript.status = .success then
      some (transcript.video_id ++ "_" ++ transcript.method.getD "youtube" ++ ".json", transcript)
    else none

/-- `TranscriptExtractor.is_english_content` on a transcript record. -/
def is_english_content (transcript : Transcript) : Bool :=
  if transcript.status ≠ .success then false
  else if transcript.language = some "en" ∨ transcript.language = some "en-US" ∨
          transcript.language = some "en-GB" then true
  else
    let title := strLower (transcript.video_title.getD "")
    ["english", "영어", "toeic", "speaking", "grammar", "vocabulary"].any
      fun keyword => strContains title keyword

/-- Per-video body of `main._extract_transcripts`: reuse a persisted
record when one loads, otherwise extract and attach the video metadata.
`fallback_only` is accepted because the pipeline reads it from the
configuration, but—exactly as in the source, where it only selects a log
message—it never influences extraction. -/
def pipeline_extract_one (cenv : CaptionsEnv) (wenv : WhisperEnv)
    (use_whisper fallback_only : Bool) (fs : String → Option Transcript)
    (video : Video) : Transcript × Bool :=
  match load_transcript fs video.video_id with
  | some existing => (existing, false)
  | none =>
    let r := extract_transcript cenv wenv use_whisper video.video_id (some video.url)
    ({ r.1 with
        video_title := some video.title
        video_url := some video.url
        channel := some video.channel }, r.2)

/-! ## Summarizer (`src/summarizer.py`) -/

/-- `VideoSummarizer.summarize_general`, with the hosted language-model
call abstracted as `api` (its failure modelled as `.error`). -/
def summarize_general (api : Transcript → Except String String) (transcript : Transcript) :
    Summary :=
  if transcript.status ≠ .success then
    { video_id := transcript.video_id, status := .skipped, reason := some "자막 없음" }
  else
    match api transcript with
    | .ok s =>
      { video_id := transcript.video_id
        video_title := transcript.video_title
        video_url := transcript.video_url
        channel := transcript.channel
        type := some "general"
        summary := some s
        status := .success }
    | .error e =>
      { video_id := transcript.video_id, status := .error, error := some e }

/-- `VideoSummarizer.summarize_english_learning`, the API call abstracted
as `api`. -/
def summarize_english_learning (api : Transcript → Except String String)
    (transcript : Transcript) : Summary :=
  if transcript.status ≠ .success then
    { video_id := transcript.video_id, status := .skipped, reason := some "자막 없음" }
  else
    match api transcript with
    | .ok s =>
      { video_id := transcript.video_id
        video_title := transcript.video_title
        video_url := transcript.video_url
        channel := transcript.channel
        type := some "english_learning"
        summary := some s
        status := .success }
    | .error e =>
      { video_id := transcript.video_id, status := .error, error := some e }

/-- `VideoSummarizer.save_summaries` as the list of (path, record) file
writes it performs: only success-status records are written. -/
def save_summaries (summaries : List Summary) : List (String × Summary) :=
  summaries.filterMap fun summary =>
    if summary.status = .success then
      some (summary.video_id ++ "_summary.json", summary)
    else none

/-- `VideoSummarizer.load_summary` over the persisted-file store. -/
def load_summary (fs : String → Option Summary) (video_id : String) : Option Summary :=
  fs (video_id ++ "_summary.json")

/-- The success-status filter of `main._generate_summaries`
(`valid_transcripts`): only these transcripts reach summarization. -/
def valid_transcripts (transcripts : List Transcript) : List Transcript :=
  transcripts.filter fun t => t.status == .success

/-- Per-transcript body of `main._generate_summaries`: a persisted summary
is reused as-is; otherwise one generation request is issued, with the
template chosen by `is_english_content`.  The second component records
whether a generation request was issued. -/
def summarizeStep (fs : String → Option Summary)
    (apiGen apiEng : Transcript → Except String String) (transcript : Transcript) :
    Summary × Bool :=
  match load_summary fs transcript.video_id with
  | some existing => (existing, false)
  | none =>
    (if is_english_content transcript then summarize_english_learning apiEng transcript
     else summarize_general apiGen transcript, true)

/-- `main._generate_summaries`: the summaries (paired with the
issued-a-request flag), one per success-status transcript. -/
def generate_summaries (fs : String → Option Summary)
    (apiGen apiEng : Transcript → Except String String) (transcripts : List Transcript) :
    List (Summary × Bool) :=
  (valid_transcripts transcripts).map (summarizeStep fs apiGen apiEng)

/-! ## Reporter (`src/reporter.py`) -/

/-- One checklist entry of the review schedule
(`{'title', 'url', 'day': f"D+{day}"}`). -/
structure ReviewItem where
  title : String
  url : String
  day : String
deriving DecidableEq, Repr

/-- `ReportGenerator.generate_review_schedule`.  Dates are modelled as day
numbers (`today + day`); the five offsets give five distinct dates, so the
Python dict keyed by formatted date strings is faithfully an association
list with these keys. -/
def generate_review_schedule (today : Nat) (summaries : List Summary)
    (days : List Nat := [1, 3, 7, 14, 30]) : List (Nat × List ReviewItem) :=
  let english_summaries := summaries.filter fun s =>
    s.type == some "english_learning" && s.status == .success
  if english_summaries.isEmpty then []
  else
    days.map fun day =>
      (today + day,
       english_summaries.map fun s =>
         { title := s.video_title.getD ""
           url := s.video_url.getD ""
           day := "D+" ++ toString day })

/-! ## Concrete sample data (used to evaluate the definitions on closed inputs) -/

/-- A captions service that has a Korean caption track for every video. -/
def captionsPresentEnv : CaptionsEnv :=
  { getTranscript := fun _ lang => if lang = "ko" then some [{ text := "안녕" }] else none
    listTranscripts := fun _ => [] }

/-- A captions service with no captions at all. -/
def captionsAbsentEnv : CaptionsEnv :=
  { getTranscript := fun _ _ => none
    listTranscripts := fun _ => [] }

/-- A Whisper side-effect environment whose recognition succeeds. -/
def workingWhisperEnv : WhisperEnv :=
  { downloadAudio := fun _ _ => some "aud.mp3"
    transcribe := fun _ => .ok { language := some "en", text := "hello" }
    removeSucceeds := fun _ => true }

/-- A Whisper environment whose recognition throws. -/
def failingWhisperEnv : WhisperEnv :=
  { downloadAudio := fun _ _ => some "aud.mp3"
    transcribe := fun _ => .error "recognition failed"
    removeSucceeds := fun _ => true }

/-- A Whisper environment where recognition succeeds but `os.remove`
fails. -/
def stickyWhisperEnv : WhisperEnv :=
  { downloadAudio := fun _ _ => some "aud.mp3"
    transcribe := fun _ => .ok { language := some "en", text := "hello" }
    removeSucceeds := fun _ => false }

/-- A language-model API that always answers. -/
def okApi : Transcript → Except String String := fun _ => .ok "요약"

/-- A persisted summary for identifier `x`. -/
def recX : Summary := { video_id := "x", type := some "general", status := .success }

/-- A summary store holding exactly `recX`. -/
def storeX : String → Option Summary :=
  fun p => if p = "x_summary.json" then some recX else none

/-- A success transcript for identifier `x`. -/
def tX : Transcript := { video_id := "x", status := .success }

/-- A persisted `youtube_api` transcript for identifier `x`. -/
def tYx : Transcript := { video_id := "x", method := some "youtube_api", status := .success }

/-- A persisted `whisper` transcript for identifier `x`. -/
def tWx : Transcript := { video_id := "x", method := some "whisper", status := .success }

/-- A transcript store holding both files for `x`. -/
def fsBoth : String → Option Transcript :=
  fun p => if p = "x_youtube_api.json" then some tYx
           else if p = "x_whisper.json" then some tWx else none

/-- A transcript store holding only the `whisper` file for `x`. -/
def fsWhisperOnly : String → Option Transcript :=
  fun p => if p = "x_whisper.json" then some tWx else none

/-- A no-transcript record for identifier `v`. -/
def ntV : Transcript := { video_id := "v", status := .no_transcript }

/-- An error-status transcript for identifier `e`. -/
def errT : Transcript := { video_id := "e", status := .error, error := some "boom" }

/-- An error-status summary for identifier `e`. -/
def errS : Summary := { video_id := "e", status := .error, error := some "boom" }

/-- A success english-learning summary. -/
def engS : Summary :=
  { video_id := "e1", video_title := some "T", video_url := some "U"
    type := some "english_learning", status := .success }

/-- Sample videos for the collector counterexample. -/
def vA : Video := { video_id := "a" }

/-- Second sample video. -/
def vB : Video := { video_id := "b" }

/-- Third sample video. -/
def vC : Video := { video_id := "c" }

/-- Sample category configuration from the spec's end-to-end scenario. -/
def catsTL : List (String × List String) := [("tech", ["algorithm"]), ("life", ["diary"])]

/-- Video V1 of the spec's end-to-end scenario. -/
def vAlgo : Video := { video_id := "v1", title := "Algorithm basics", url := "u1" }

/-- Video V2 of the spec's end-to-end scenario. -/
def vDiary : Video := { video_id := "v2", title := "My daily diary", url := "u2" }

/-! ## Theorems -/

/-- C1: the code contradicts the spec (and its own log message): with
speech recognition enabled and `fallback_only = false`, a video whose
platform captions are present is never sent to Whisper — `fallback_only`
is read by the pipeline only to choose a log line and never reaches
`extract_transcript`, so the produced transcript does not depend on it.
Evaluated at the failing input: captions present, `use_whisper = true`,
`fallback_only = false`. -/
theorem fallback_only_never_reaches_extraction :
    ∀ fallback_only : Bool,
      (pipeline_extract_one captionsPresentEnv workingWhisperEnv true fallback_only
        (fun _ => none) vAlgo).2 = false ∧
      (pipeline_extract_one captionsPresentEnv workingWhisperEnv true fallback_only
        (fun _ => none) vAlgo).1.method = some "youtube_api" ∧
      pipeline_extract_one captionsPresentEnv workingWhisperEnv true fallback_only
        (fun _ => none) vAlgo =
      pipeline_extract_one captionsPresentEnv workingWhisperEnv true true
        (fun _ => none) vAlgo := by
  intro fallback_only
  exact ⟨rfl, rfl, rfl⟩

/-- C3: when a summary record for identifier `X` is persisted, re-running
the summarization stage over any transcript of `X` issues no generation
request (the request flag is `false`) and emits the persisted record
unchanged. -/
theorem generate_summaries_memoized (fs : String → Option Summary)
    (apiGen apiEng : Transcript → Except String String) (X : String) (rec : Summary)
    (ts : List Transcript) (hstore : fs (X ++ "_summary.json") = some rec) :
    ∀ t ∈ ts, t.video_id = X →
      summarizeStep fs apiGen apiEng t = (rec, false) ∧
      (t.status = .success → (rec, false) ∈ generate_summaries fs apiGen apiEng ts) := by
  intro t ht hid
  have hstep : summarizeStep fs apiGen apiEng t = (rec, false) := by
    unfold summarizeStep load_summary
    rw [hid, hstore]
  refine ⟨hstep, fun hs => ?_⟩
  have htv : t ∈ valid_transcripts ts := by
    unfold valid_transcripts
    exact List.mem_filter.2 ⟨ht, by simp [hs]⟩
  exact List.mem_map.2 ⟨t, htv, hstep⟩

/-- C3 witness: concrete store holding `recX`, concrete transcript `tX`. -/
theorem generate_summaries_memoized_witness :
    summarizeStep storeX okApi okApi tX = (recX, false) ∧
    (recX, false) ∈ generate_summaries storeX okApi okApi [tX] := by
  have h := generate_summaries_memoized storeX okApi okApi "x" recX [tX]
    (by decide) tX (by decide) rfl
  exact ⟨h.1, h.2 rfl⟩

/-- C4: with no platform captions available and speech recognition
disabled, the extracted record has status `no_transcript`; a video all of
whose transcript records are `no_transcript` never enters the
summarization stage, which maps exactly over the success-status
transcripts. -/
theorem no_transcript_skips_summary (cenv : CaptionsEnv) (wenv : WhisperEnv)
    (vid : String) (url : Option String) (languages : List String)
    (hget : ∀ lang, cenv.getTranscript vid lang = none)
    (hlist : cenv.listTranscripts vid = []) :
    (extract_transcript cenv wenv false vid url languages).1.status = .no_transcript ∧
    ∀ ts : List Transcript, (∀ t ∈ ts, t.video_id = vid → t.status = .no_transcript) →
      vid ∉ (valid_transcripts ts).map (·.video_id) ∧
      ∀ fs apiGen apiEng,
        generate_summaries fs apiGen apiEng ts =
          (valid_transcripts ts).map (summarizeStep fs apiGen apiEng) := by
  have htry : tryLanguages cenv vid languages = none := by
    induction languages with
    | nil => rfl
    | cons l ls ih => unfold tryLanguages; rw [hget l]; exact ih
  have hyt : extract_youtube_transcript cenv vid languages =
      { video_id := vid, status := .no_transcript, error := some "사용 가능한 자막이 없습니다" } := by
    unfold extract_youtube_transcript
    rw [htry, hlist]
  constructor
  · unfold extract_transcript
    rw [hyt]
    cases url <;> simp
  · intro ts hts
    constructor
    · intro hmem
      obtain ⟨t, htv, hid⟩ := List.mem_map.1 hmem
      have hf := List.mem_filter.1 htv
      have hstat := hts t hf.1 hid
      rw [hstat] at hf
      exact absurd hf.2 (by decide)
    · intro fs apiGen apiEng
      rfl

/-- C4 witness: the empty captions service, recognition disabled, and a
transcript list holding only the `no_transcript` record for `v`. -/
theorem no_transcript_skips_summary_witness :
    (extract_transcript captionsAbsentEnv workingWhisperEnv false "v" (some "u")
      ["ko", "en"]).1.status = .no_transcript ∧
    "v" ∉ (valid_transcripts [ntV]).map (·.video_id) := by
  have h := no_transcript_skips_summary captionsAbsentEnv workingWhisperEnv "v"
    (some "u") ["ko", "en"] (fun _ => rfl) rfl
  exact ⟨h.1, (h.2 [ntV] (by decide)).1⟩

/-- C6 counterexample: a Whisper attempt whose recognition throws leaves
the downloaded audio file on disk — `os.remove` is reached only on the
success path, so the file is not deleted "regardless of outcome". -/
theorem whisper_audio_left_on_failed_recognition :
    (extract_with_whisper failingWhisperEnv "v" "u").1.status = .error ∧
    (extract_with_whisper failingWhisperEnv "v" "u").2 = true := by
  exact ⟨rfl, rfl⟩

/-- C6 (amended): after a successful download, the audio file is deleted
(best-effort) only when recognition succeeds — a recognition failure
returns an error record with the file still on disk, while a failure of
the deletion itself is swallowed: the record still has status `success`
and only the file-remains flag reflects it. -/
theorem whisper_audio_cleanup (wenv : WhisperEnv) (vid url path : String)
    (hdl : wenv.downloadAudio vid url = some path) :
    (∀ e, wenv.transcribe path = .error e →
      extract_with_whisper wenv vid url =
        ({ video_id := vid, status := .error, error := some e }, true)) ∧
    (∀ res, wenv.transcribe path = .ok res →
      (extract_with_whisper wenv vid url).1.status = .success ∧
      (extract_with_whisper wenv vid url).2 = !(wenv.removeSucceeds path)) := by
  constructor
  · intro e he
    simp only [extract_with_whisper, hdl, he]
  · intro res hr
    simp [extract_with_whisper, hdl, hr]

/-- C6 witness: the failing-recognition environment leaves the file; the
environment whose `os.remove` fails still reports success. -/
theorem whisper_audio_cleanup_witness :
    extract_with_whisper failingWhisperEnv "v" "u" =
      ({ video_id := "v", status := .error, error := some "recognition failed" }, true) ∧
    (extract_with_whisper stickyWhisperEnv "v" "u").1.status = .success ∧
    (extract_with_whisper stickyWhisperEnv "v" "u").2 = true := by
  have h1 := (whisper_audio_cleanup failingWhisperEnv "v" "u" "aud.mp3" rfl).1
    "recognition failed" rfl
  have h2 := (whisper_audio_cleanup stickyWhisperEnv "v" "u" "aud.mp3" rfl).2
    { language := some "en", text := "hello" } rfl
  exact ⟨h1, h2.1, h2.2⟩

/-- C8: `load_transcript` returns the platform-captions record whenever
its file exists, the speech-recognition record only when the captions
file is absent, and `none` when neither file exists. -/
theorem load_transcript_priority (fs : String → Option Transcript) (vid : String) :
    (∀ tY, fs (vid ++ "_youtube_api.json") = some tY → load_transcript fs vid = some tY) ∧
    (∀ tW, fs (vid ++ "_youtube_api.json") = none → fs (vid ++ "_whisper.json") = some tW →
      load_transcript fs vid = some tW) ∧
    (fs (vid ++ "_youtube_api.json") = none → fs (vid ++ "_whisper.json") = none →
      load_transcript fs vid = none) := by
  refine ⟨fun tY hY => ?_, fun tW hn hW => ?_, fun hn hw => ?_⟩
  · unfold load_transcript; rw [hY]
  · unfold load_transcript; rw [hn, hW]
  · unfold load_transcript; rw [hn, hw]

/-- C8 witness: with both files persisted for `x` the captions record is
returned; with the whisper file alone, the whisper record; with neither,
`none`. -/
theorem load_transcript_priority_witness :
    load_transcript fsBoth "x" = some tYx ∧
    load_transcript fsWhisperOnly "x" = some tWx ∧
    load_transcript (fun _ => none) "x" = none := by
  refine ⟨(load_transcript_priority fsBoth "x").1 tYx (by decide), ?_, ?_⟩
  · exact (load_transcript_priority fsWhisperOnly "x").2.1 tWx (by decide) (by decide)
  · exact (load_transcript_priority (fun _ => none) "x").2.2 rfl rfl

/-- C9: every file write performed by `save_transcripts` and
`save_summaries` carries a success-status record, so a record with any
other status (`no_transcript`, `disabled`, `error`, `skipped`) is never
persisted — a failed extraction or summarization is not memoized. -/
theorem only_success_persisted (ts : List Transcript) (ss : List Summary) :
    (∀ w ∈ save_transcripts ts, w.2.status = .success) ∧
    (∀ w ∈ save_summaries ss, w.2.status = .success) ∧
    (∀ t ∈ ts, t.status ≠ .success → ∀ w ∈ save_transcripts ts, w.2 ≠ t) ∧
    (∀ s ∈ ss, s.status ≠ .success → ∀ w ∈ save_summaries ss, w.2 ≠ s) := by
  have hT : ∀ w ∈ save_transcripts ts, w.2.status = .success := by
    intro w hw
    obtain ⟨t, _, hf⟩ := List.mem_filterMap.1 hw
    by_cases h : t.status = Status.success
    · rw [if_pos h] at hf
      obtain rfl := Option.some.inj hf
      exact h
    · rw [if_neg h] at hf
      exact absurd hf (by simp)
  have hS : ∀ w ∈ save_summaries ss, w.2.status = .success := by
    intro w hw
    obtain ⟨s, _, hf⟩ := List.mem_filterMap.1 hw
    by_cases h : s.status = Status.success
    · rw [if_pos h] at hf
      obtain rfl := Option.some.inj hf
      exact h
    · rw [if_neg h] at hf
      exact absurd hf (by simp)
  refine ⟨hT, hS, ?_, ?_⟩
  · intro t _ hns w hw heq
    exact hns (heq ▸ hT w hw)
  · intro s _ hns w hw heq
    exact hns (heq ▸ hS w hw)

/-- C9 witness: of a success record and an error record, only the success
record is written, and no write equals the error record. -/
theorem only_success_persisted_witness :
    (("x_youtube_api.json", tYx).2.status = Status.success) ∧
    (("x_youtube_api.json", tYx) : String × Transcript).2 ≠ errT ∧
    save_transcripts [tYx, errT] = [("x_youtube_api.json", tYx)] ∧
    save_summaries [errS] = [] := by
  have h := only_success_persisted [tYx, errT] [errS]
  refine ⟨h.1 ("x_youtube_api.json", tYx) (by decide), ?_, by decide, by decide⟩
  exact h.2.2.1 errT (by decide) (by decide) ("x_youtube_api.json", tYx) (by decide)

/-- Helper for C7: whole pages are appended, so every intermediate and
final accumulator stays below `max_results + P` when each page holds at
most `P` items. -/
theorem collectPages_length_lt (max_results P : Nat) :
    ∀ (pages : List (List Video)) (acc : List Video),
      (∀ p ∈ pages, p.length ≤ P) → acc.length < max_results + P →
      (collectPages pages max_results acc).length < max_results + P := by
  intro pages
  induction pages with
  | nil => intro acc _ hacc; exact hacc
  | cons p ps ih =>
    intro acc hpages hacc
    unfold collectPages
    by_cases hlt : acc.length < max_results
    · rw [if_pos hlt]
      have hp : p.length ≤ P := hpages p (List.mem_cons_self p ps)
      refine ih (acc ++ p) (fun q hq => hpages q (List.mem_cons_of_mem p hq)) ?_
      rw [List.length_append]
      omega
    · rw [if_neg hlt]
      exact hacc

/-- Helper for C7: when the whole listing fits under the cap, every page
is consumed and the result is the full concatenation. -/
theorem collectPages_exhausts (max_results : Nat) :
    ∀ (pages : List (List Video)) (acc : List Video),
      acc.length + pages.flatten.length ≤ max_results →
      collectPages pages max_results acc = acc ++ pages.flatten := by
  intro pages
  induction pages with
  | nil => intro acc _; simp [collectPages]
  | cons p ps ih =>
    intro acc hle
    rw [List.flatten_cons, List.length_append] at hle
    unfold collectPages
    by_cases hlt : acc.length < max_results
    · rw [if_pos hlt, ih (acc ++ p) (by rw [List.length_append]; omega)]
      rw [List.flatten_cons, List.append_assoc]
    · rw [if_neg hlt]
      have h0 : p.length = 0 ∧ ps.flatten.length = 0 := by omega
      have hp : p = [] := List.length_eq_zero.1 h0.1
      have hps : ps.flatten = [] := List.length_eq_zero.1 h0.2
      simp [List.flatten_cons, hp, hps]

/-- C7 counterexample: with `max_results = 1` and a single upstream page
of two records, `get_liked_videos` returns both records — the whole page
is appended before the cap is re-checked, so the cap can be exceeded. -/
theorem get_liked_videos_exceeds_cap :
    get_liked_videos [[vA, vB]] 1 = [vA, vB] ∧
    ¬ (get_liked_videos [[vA, vB]] 1).length ≤ 1 := by
  exact ⟨rfl, by decide⟩

/-- C7 (amended): `get_liked_videos` requests a further page only while
the count is below `max_results` but appends each fetched page whole, so
with every page of at most `P > 0` items the result holds fewer than
`max_results + P` records; and when the listing fits under the cap it is
returned in full. -/
theorem get_liked_videos_amended (pages : List (List Video)) (max_results P : Nat)
    (hP : 0 < P) (hpages : ∀ p ∈ pages, p.length ≤ P) :
    (get_liked_videos pages max_results).length < max_results + P ∧
    (pages.flatten.length ≤ max_results → get_liked_videos pages max_results = pages.flatten) := by
  constructor
  · exact collectPages_length_lt max_results P pages [] hpages (by simp; omega)
  · intro hfit
    unfold get_liked_videos
    rw [collectPages_exhausts max_results pages [] (by simpa using hfit)]
    simp

/-- C7 witness: pages of at most 2 items with cap 2 yield fewer than 4
records; a listing of 2 records under cap 3 is returned in full. -/
theorem get_liked_videos_amended_witness :
    (get_liked_videos [[vA], [vB, vC]] 2).length < 4 ∧
    get_liked_videos [[vA], [vB]] 3 = [vA, vB] := by
  refine ⟨(get_liked_videos_amended [[vA], [vB, vC]] 2 2 (by decide) (by decide)).1, ?_⟩
  have h := (get_liked_videos_amended [[vA], [vB]] 3 1 (by decide) (by decide)).2 (by decide)
  simpa using h

/-- C5: as soon as one success-status english-learning summary exists,
`generate_review_schedule` emits exactly five buckets, keyed by the
offsets 1, 3, 7, 14 and 30 days from the generation instant, and every
success-status english-learning summary appears in each of the five
buckets (with its title, url and the matching `D+n` tag). -/
theorem review_schedule_spec (today : Nat) (summaries : List Summary)
    (hne : ∃ s ∈ summaries, s.type = some "english_learning" ∧ s.status = .success) :
    (generate_review_schedule today summaries).map Prod.fst =
      [today + 1, today + 3, today + 7, today + 14, today + 30] ∧
    (generate_review_schedule today summaries).length = 5 ∧
    ∀ day ∈ ([1, 3, 7, 14, 30] : List Nat), ∀ s ∈ summaries,
      s.type = some "english_learning" → s.status = .success →
      ∃ items, (today + day, items) ∈ generate_review_schedule today summaries ∧
        ({ title := s.video_title.getD "", url := s.video_url.getD "",
           day := "D+" ++ toString day } : ReviewItem) ∈ items := by
  obtain ⟨s0, hs0, h1, h2⟩ := hne
  have hs0e : s0 ∈ summaries.filter
      (fun s => s.type == some "english_learning" && s.status == .success) :=
    List.mem_filter.2 ⟨hs0, by simp [h1, h2]⟩
  have hni : (summaries.filter
      (fun s => s.type == some "english_learning" && s.status == .success)).isEmpty = false := by
    cases hfe : summaries.filter
        (fun s => s.type == some "english_learning" && s.status == .success) with
    | nil => rw [hfe] at hs0e; exact absurd hs0e (List.not_mem_nil s0)
    | cons a l => rfl
  refine ⟨?_, ?_, ?_⟩
  · simp [generate_review_schedule, hni]
  · simp [generate_review_schedule, hni]
  · intro day hday s hs ht hstat
    have hse : s ∈ summaries.filter
        (fun s => s.type == some "english_learning" && s.status == .success) :=
      List.mem_filter.2 ⟨hs, by simp [ht, hstat]⟩
    refine ⟨(summaries.filter
        (fun s => s.type == some "english_learning" && s.status == .success)).map
        (fun s => { title := s.video_title.getD "", url := s.video_url.getD "",
                    day := "D+" ++ toString day }), ?_, ?_⟩
    · simp only [generate_review_schedule, hni, Bool.false_eq_true, if_false]
      exact List.mem_map.2 ⟨day, hday, rfl⟩
    · exact List.mem_map.2 ⟨s, hse, rfl⟩

/-- C5 witness: a single success english-learning summary yields the five
buckets from day 0 and appears in the `D+1` bucket. -/
theorem review_schedule_spec_witness :
    (generate_review_schedule 0 [engS]).map Prod.fst = [1, 3, 7, 14, 30] ∧
    (generate_review_schedule 0 [engS]).length = 5 ∧
    ∃ items, (1, items) ∈ generate_review_schedule 0 [engS] ∧
      ({ title := "T", url := "U", day := "D+1" } : ReviewItem) ∈ items := by
  have h := review_schedule_spec 0 [engS] (by decide)
  refine ⟨by simpa using h.1, h.2.1, ?_⟩
  have h3 := h.2.2 1 (by decide) engS (by decide) (by decide) (by decide)
  simpa using h3

/-- Helper for C2: Python's `max(..., key=...)` scan (a left fold with
strict replacement) returns an element of the list such that everything
strictly before it scores strictly less and everything in the list scores
at most it — i.e. the first maximal element. -/
theorem pickStep_foldl_spec :
    ∀ (l : List (String × Nat)) (p : String × Nat),
      ∃ pre post, p :: l = pre ++ (l.foldl pickStep p) :: post ∧
        (∀ q ∈ pre, q.2 < (l.foldl pickStep p).2) ∧
        (∀ q ∈ p :: l, q.2 ≤ (l.foldl pickStep p).2) := by
  intro l
  induction l with
  | nil =>
    intro p
    refine ⟨[], [], rfl, by intro q hq; exact absurd hq (List.not_mem_nil q), ?_⟩
    intro q hq
    rw [List.mem_singleton.1 hq]
    exact le_refl p.2
  | cons q rest ih =>
    intro p
    rw [List.foldl_cons]
    by_cases h : p.2 < q.2
    · have hpq : pickStep p q = q := by simp [pickStep, h]
      rw [hpq]
      obtain ⟨pre, post, heq, hlt, hle⟩ := ih q
      refine ⟨p :: pre, post, ?_, ?_, ?_⟩
      · rw [List.cons_append, ← heq]
      · intro x hx
        rcases List.mem_cons.1 hx with hx | hx
        · rw [hx]
          exact lt_of_lt_of_le h (hle q (List.mem_cons_self q rest))
        · exact hlt x hx
      · intro x hx
        rcases List.mem_cons.1 hx with hx | hx
        · rw [hx]
          exact le_of_lt (lt_of_lt_of_le h (hle q (List.mem_cons_self q rest)))
        · exact hle x hx
    · have hpq : pickStep p q = p := by simp [pickStep, h]
      rw [hpq]
      obtain ⟨pre, post, heq, hlt, hle⟩ := ih p
      generalize hbg : List.foldl pickStep p rest = b at heq hlt hle ⊢
      cases pre with
      | nil =>
        rw [List.nil_append] at heq
        injection heq with hb hpost
        refine ⟨[], q :: rest, ?_, ?_, ?_⟩
        · rw [List.nil_append, ← hb]
        · intro x hx
          exact absurd hx (List.not_mem_nil x)
        · intro x hx
          rcases List.mem_cons.1 hx with hx | hx
          · rw [hx]
            exact hle p (List.mem_cons_self p rest)
          rcases List.mem_cons.1 hx with hx | hx
          · rw [hx, ← hb]
            omega
          · exact hle x (List.mem_cons_of_mem p hx)
      | cons p0 pre2 =>
        rw [List.cons_append] at heq
        injection heq with hp0 hrest
        have hpmem : p ∈ p0 :: pre2 := by rw [hp0]; exact List.mem_cons_self p0 pre2
        refine ⟨p :: q :: pre2, post, ?_, ?_, ?_⟩
        · rw [List.cons_append, List.cons_append, hrest]
        · intro x hx
          rcases List.mem_cons.1 hx with hx | hx
          · rw [hx]
            exact hlt p hpmem
          rcases List.mem_cons.1 hx with hx | hx
          · rw [hx]
            exact lt_of_le_of_lt (by omega) (hlt p hpmem)
          · exact hlt x (List.mem_cons_of_mem p0 hx)
        · intro x hx
          rcases List.mem_cons.1 hx with hx | hx
          · rw [hx]
            exact hle p (List.mem_cons_self p rest)
          rcases List.mem_cons.1 hx with hx | hx
          · rw [hx]
            exact le_trans (by omega) (hle p (List.mem_cons_self p rest))
          · exact hle x (List.mem_cons_of_mem p hx)

/-- Helper for C2: splitting a `filterMap` around a produced element
recovers the corresponding split of the original list. -/
theorem filterMap_split {α β : Type} (f : α → Option β) :
    ∀ (l : List α) (l1 : List β) (b : β) (l2 : List β),
      l.filterMap f = l1 ++ b :: l2 →
      ∃ p x q, l = p ++ x :: q ∧ f x = some b ∧ p.filterMap f = l1 ∧ q.filterMap f = l2 := by
  intro l
  induction l with
  | nil =>
    intro l1 b l2 h
    rw [List.filterMap_nil] at h
    exact absurd h (by simp)
  | cons a t ih =>
    intro l1 b l2 h
    rw [List.filterMap_cons] at h
    cases hfa : f a with
    | none =>
      rw [hfa] at h
      obtain ⟨p, x, q, h1, h2, h3, h4⟩ := ih l1 b l2 h
      exact ⟨a :: p, x, q, by rw [h1]; rfl, h2,
        by simp [List.filterMap_cons, hfa, h3], h4⟩
    | some v =>
      rw [hfa] at h
      cases l1 with
      | nil =>
        rw [List.nil_append] at h
        injection h with hv hl2
        exact ⟨[], a, t, rfl, by rw [hfa, hv], rfl, hl2⟩
      | cons c l1t =>
        rw [List.cons_append] at h
        injection h with hv ht
        obtain ⟨p, x, q, h1, h2, h3, h4⟩ := ih l1t b l2 ht
        exact ⟨a :: p, x, q, by rw [h1]; rfl, h2,
          by simp [List.filterMap_cons, hfa, h3, hv], h4⟩

/-- C2: `categorize_video` returns '기타' exactly when every configured
category has keyword score zero over the search text (lowercased
title+description, plus the first 500 transcript characters for a
success-status transcript); otherwise it returns a configured category of
maximal score such that every category declared before it scores strictly
less — the earliest-declared category among those tied at the maximum. -/
theorem categorize_video_spec (cats : List (String × List String)) (video : Video)
    (transcript : Option Transcript) :
    ((∀ p ∈ cats, kwScore (searchText video transcript) p.2 = 0) →
      categorize_video cats video transcript = "기타") ∧
    (∀ c kws, (c, kws) ∈ cats → 0 < kwScore (searchText video transcript) kws →
      ∃ pre kws0 post,
        cats = pre ++ (categorize_video cats video transcript, kws0) :: post ∧
        (∀ q ∈ pre, kwScore (searchText video transcript) q.2 <
          kwScore (searchText video transcript) kws0) ∧
        (∀ q ∈ cats, kwScore (searchText video transcript) q.2 ≤
          kwScore (searchText video transcript) kws0)) := by
  set st := searchText video transcript with hst
  constructor
  · intro hz
    have hnil : cats.filterMap (catScore st) = [] := by
      rw [List.filterMap_eq_nil_iff]
      intro p hp
      simp [catScore, hz p hp]
    unfold categorize_video
    rw [← hst, hnil]
  · intro c kws hmem hpos
    have hbmem : (c, kwScore st kws) ∈ cats.filterMap (catScore st) :=
      List.mem_filterMap.2 ⟨(c, kws), hmem, by simp [catScore, hpos]⟩
    cases hfm : cats.filterMap (catScore st) with
    | nil =>
      rw [hfm] at hbmem
      exact absurd hbmem (List.not_mem_nil _)
    | cons p rest =>
      have hcv : categorize_video cats video transcript = (rest.foldl pickStep p).1 := by
        unfold categorize_video
        rw [← hst, hfm]
      obtain ⟨spre, spost, hsplit, hslt, hsle⟩ := pickStep_foldl_spec rest p
      have hfm2 : cats.filterMap (catScore st) = spre ++ (rest.foldl pickStep p) :: spost := by
        rw [hfm, hsplit]
      obtain ⟨pre, x, post, hcats, hfx, hpre, hpost⟩ :=
        filterMap_split (catScore st) cats spre _ spost hfm2
      have hb : rest.foldl pickStep p = (x.1, kwScore st x.2) ∧ 0 < kwScore st x.2 := by
        simp only [catScore] at hfx
        by_cases hx : 0 < kwScore st x.2
        · rw [if_pos hx] at hfx
          exact ⟨(Option.some.inj hfx).symm, hx⟩
        · rw [if_neg hx] at hfx
          exact absurd hfx (by simp)
      refine ⟨pre, x.2, post, ?_, ?_, ?_⟩
      · rw [hcv, hb.1]
        exact hcats
      · intro q hq
        by_cases hqs : 0 < kwScore st q.2
        · have hqmem : (q.1, kwScore st q.2) ∈ spre := by
            rw [← hpre]
            exact List.mem_filterMap.2 ⟨q, hq, by simp [catScore, hqs]⟩
          have := hslt _ hqmem
          rw [hb.1] at this
          exact this
        · have h0 : kwScore st q.2 = 0 := Nat.eq_zero_of_not_pos hqs
          rw [h0]
          exact hb.2
      · intro q hq
        by_cases hqs : 0 < kwScore st q.2
        · have hqmem : (q.1, kwScore st q.2) ∈ p :: rest := by
            rw [← hfm]
            exact List.mem_filterMap.2 ⟨q, hq, by simp [catScore, hqs]⟩
          have := hsle _ hqmem
          rw [hb.1] at this
          exact this
        · have h0 : kwScore st q.2 = 0 := Nat.eq_zero_of_not_pos hqs
          rw [h0]
          exact Nat.zero_le _

/-- C2 witness: the spec's sample configuration; "Algorithm basics" hits
only the "tech" keyword, so categorize_video returns "tech" and the
characterization instantiates with an empty prefix. -/
theorem categorize_video_spec_witness :
    categorize_video catsTL vAlgo none = "tech" ∧
    ∃ pre kws0 post,
      catsTL = pre ++ (categorize_video catsTL vAlgo none, kws0) :: post ∧
      (∀ q ∈ pre, kwScore (searchText vAlgo none) q.2 < kwScore (searchText vAlgo none) kws0) ∧
      (∀ q ∈ catsTL, kwScore (searchText vAlgo none) q.2 ≤ kwScore (searchText vAlgo none) kws0) := by
  exact ⟨by decide,
    (categorize_video_spec catsTL vAlgo none).2 "tech" ["algorithm"] (by decide) (by decide)⟩

/-- Helper for C10: appending one tagged video to its bucket raises the
occurrence count of exactly that video record by one. -/
theorem addToCategory_count (v : Video) (cv : CatVideo) (cat : String) :
    ∀ m, batchCount (addToCategory m cat cv) v =
      batchCount m v + (if cv.video == v then 1 else 0) := by
  intro m
  induction m with
  | nil =>
    by_cases h : cv.video == v <;> simp [addToCategory, batchCount, List.filter, h]
  | cons hd rest ih =>
    obtain ⟨c, vs⟩ := hd
    unfold addToCategory
    by_cases h : c = cat
    · rw [if_pos h]
      unfold batchCount
      rw [List.filter_append]
      by_cases hv : cv.video == v <;> simp [List.filter, hv] <;> omega
    · rw [if_neg h]
      unfold batchCount
      rw [ih]
      omega

/-- Helper for C10: a per-entry property of buckets is preserved by
`addToCategory` when the inserted pair satisfies it. -/
theorem addToCategory_forall {P : CatVideo → String → Prop} (cat : String) (cv : CatVideo) :
    ∀ m, (∀ pr ∈ m, ∀ x ∈ pr.2, P x pr.1) → P cv cat →
      ∀ pr ∈ addToCategory m cat cv, ∀ x ∈ pr.2, P x pr.1 := by
  intro m
  induction m with
  | nil =>
    intro _ hcv pr hpr x hx
    rw [List.mem_singleton.1 hpr] at hx ⊢
    rw [List.mem_singleton.1 hx]
    exact hcv
  | cons hd rest ih =>
    intro hm hcv pr hpr x hx
    obtain ⟨c, vs⟩ := hd
    unfold addToCategory at hpr
    by_cases h : c = cat
    · rw [if_pos h] at hpr
      rcases List.mem_cons.1 hpr with hpr | hpr
      · rw [hpr] at hx
        rw [hpr]
        rcases List.mem_append.1 hx with hx2 | hx2
        · exact hm (c, vs) (List.mem_cons_self _ _) x hx2
        · rw [List.mem_singleton.1 hx2, h]
          exact hcv
      · exact hm pr (List.mem_cons_of_mem _ hpr) x hx
    · rw [if_neg h] at hpr
      rcases List.mem_cons.1 hpr with hpr | hpr
      · exact hm pr (by rw [hpr]; exact List.mem_cons_self _ _) x hx
      · exact ih (fun q hq => hm q (List.mem_cons_of_mem _ hq)) hcv pr hpr x hx

/-- Helper for C10: the key list after insertion — unchanged when the
category already has a bucket, extended by the new key at the end
otherwise. -/
theorem addToCategory_keys :
    ∀ m (cat : String) (cv : CatVideo),
      (addToCategory m cat cv).map Prod.fst =
        if cat ∈ m.map Prod.fst then m.map Prod.fst else m.map Prod.fst ++ [cat] := by
  intro m
  induction m with
  | nil => intro cat cv; simp [addToCategory]
  | cons hd rest ih =>
    intro cat cv
    obtain ⟨c, vs⟩ := hd
    unfold addToCategory
    by_cases h : c = cat
    · rw [if_pos h]
      subst h
      simp
    · rw [if_neg h]
      have hne : ¬ cat = c := fun hh => h hh.symm
      by_cases hin : cat ∈ rest.map Prod.fst <;>
        simp [ih, hin, hne]

/-- Helper for C10: insertion preserves distinctness of the bucket keys. -/
theorem addToCategory_nodup (m : List (String × List CatVideo)) (cat : String)
    (cv : CatVideo) (h : (m.map Prod.fst).Nodup) :
    ((addToCategory m cat cv).map Prod.fst).Nodup := by
  rw [addToCategory_keys]
  by_cases hin : cat ∈ m.map Prod.fst
  · rw [if_pos hin]
    exact h
  · rw [if_neg hin]
    refine List.Nodup.append h (List.nodup_singleton cat) ?_
    intro a ha hb
    rw [List.mem_singleton.1 hb] at ha
    exact hin ha

/-- Helper for C10: occurrence counts over the whole batch fold. -/
theorem categorize_batch_count (cats : List (String × List String))
    (transcripts : List Transcript) (v : Video) :
    ∀ (videos : List Video) (m : List (String × List CatVideo)),
      batchCount (videos.foldl (categorizeStep cats transcripts) m) v =
        batchCount m v + videos.countP (fun w => w == v) := by
  intro videos
  induction videos with
  | nil => intro m; rw [List.countP_nil, List.foldl_nil, Nat.add_zero]
  | cons w ws ih =>
    intro m
    rw [List.foldl_cons, ih]
    have hstep : batchCount (categorizeStep cats transcripts m w) v =
        batchCount m v + (if w == v then 1 else 0) := by
      unfold categorizeStep
      exact addToCategory_count v _ _ m
    rw [hstep, List.countP_cons]
    by_cases hw : w == v <;> simp [hw] <;> omega

/-- Helper for C10: every bucket entry of the batch fold is correctly
tagged and keyed, provided the initial accumulator is. -/
theorem categorize_batch_labels (cats : List (String × List String))
    (transcripts : List Transcript) :
    ∀ (videos : List Video) (m : List (String × List CatVideo)),
      (∀ pr ∈ m, ∀ x ∈ pr.2, x.category = pr.1 ∧
        pr.1 = categorize_video cats x.video (transcript_map transcripts x.video.video_id)) →
      ∀ pr ∈ videos.foldl (categorizeStep cats transcripts) m, ∀ x ∈ pr.2,
        x.category = pr.1 ∧
        pr.1 = categorize_video cats x.video (transcript_map transcripts x.video.video_id) := by
  intro videos
  induction videos with
  | nil => intro m hm; exact hm
  | cons w ws ih =>
    intro m hm
    rw [List.foldl_cons]
    refine ih _ ?_
    unfold categorizeStep
    exact @addToCategory_forall
      (fun x c => x.category = c ∧
        c = categorize_video cats x.video (transcript_map transcripts x.video.video_id))
      (categorize_video cats w (transcript_map transcripts w.video_id))
      { video := w, category := categorize_video cats w (transcript_map transcripts w.video_id) }
      m hm ⟨rfl, rfl⟩

/-- Helper for C10: key distinctness over the whole batch fold. -/
theorem categorize_batch_nodup (cats : List (String × List String))
    (transcripts : List Transcript) :
    ∀ (videos : List Video) (m : List (String × List CatVideo)),
      (m.map Prod.fst).Nodup →
      ((videos.foldl (categorizeStep cats transcripts) m).map Prod.fst).Nodup := by
  intro videos
  induction videos with
  | nil => intro m hm; exact hm
  | cons w ws ih =>
    intro m hm
    rw [List.foldl_cons]
    exact ih _ (addToCategory_nodup m _ _ hm)

/-- C10: the grouping produced by `categorize_batch` has pairwise
distinct category keys; every entry of a bucket is tagged with exactly
its bucket's key, which is the label `categorize_video` assigns to the
entry's (unchanged) video record; and every input video occurs in the
buckets exactly as often as in the input, so each appears in exactly one
bucket (the one keyed by its assigned category). -/
theorem categorize_batch_spec (cats : List (String × List String)) (videos : List Video)
    (transcripts : List Transcript) :
    ((categorize_batch cats videos transcripts).map Prod.fst).Nodup ∧
    (∀ pr ∈ categorize_batch cats videos transcripts, ∀ cv ∈ pr.2,
      cv.category = pr.1 ∧
      pr.1 = categorize_video cats cv.video (transcript_map transcripts cv.video.video_id)) ∧
    (∀ v : Video, batchCount (categorize_batch cats videos transcripts) v =
      videos.countP (fun w => w == v)) := by
  refine ⟨?_, ?_, ?_⟩
  · exact categorize_batch_nodup cats transcripts videos [] (by simp)
  · exact categorize_batch_labels cats transcripts videos []
      (fun pr hpr => absurd hpr (List.not_mem_nil pr))
  · intro v
    rw [categorize_batch, categorize_batch_count]
    simp [batchCount]

/-- C10 witness: the spec's two sample videos land in distinct buckets
"tech" and "life", each tagged with its own key and with the original
record intact, and each occurring exactly once. -/
theorem categorize_batch_spec_witness :
    ((categorize_batch catsTL [vAlgo, vDiary] []).map Prod.fst).Nodup ∧
    ((⟨vAlgo, "tech"⟩ : CatVideo).category = "tech" ∧
      "tech" = categorize_video catsTL vAlgo (transcript_map [] vAlgo.video_id)) ∧
    batchCount (categorize_batch catsTL [vAlgo, vDiary] []) vAlgo =
      [vAlgo, vDiary].countP (fun w => w == vAlgo) := by
  have h := categorize_batch_spec catsTL [vAlgo, vDiary] []
  refine ⟨h.1, ?_, h.2.2 vAlgo⟩
  have h2 := h.2.1 ("tech", [⟨vAlgo, "tech"⟩]) (by decide) ⟨vAlgo, "tech"⟩ (by decide)
  exact h2

end YLS
